import Mathlib

/-!
Shallow embedding of the elevator dispatch simulation contained in the
repository source file (the elevator section, after the board game).
Floors, weights and capacity limits are JavaScript numbers used as
integers throughout the program; they are modelled as `Int`.  The JS
`Set` of target floors is modelled as an insertion-ordered,
duplicate-free `List Int` (a JS `Set` iterates in insertion order, `add`
appends when the element is absent).  The random request ids produced by
`uuid()` are modelled by a deterministic counter `nextId` carried by the
system; the program only compares ids for equality and relies on their
uniqueness.  Console logging is omitted: it reads state and never writes
it.
-/

/-- Elevator states, mirroring the `STATES` constant object. -/
inductive EState where
  | IDLE
  | MOVING
  | OPEN_DOOR
  | CLOSE_DOOR
  deriving DecidableEq, Repr

/-- Direction constants, mirroring the `DIR` constant object. -/
inductive Dir where
  | UP
  | DOWN
  | NONE
  deriving DecidableEq, Repr

/-- The `Passenger` class: a request with origin, destination and weight.
The source constructor parameters are `fromFloor`, `toFloor`, `weight`
(the fields are stored as `from`/`to`; `from` is a Lean keyword, so the
constructor parameter names are used). -/
structure Passenger where
  id : Nat
  fromFloor : Int
  toFloor : Int
  weight : Int
  deriving DecidableEq, Repr

/-- The mutable state of the `Elevator` class (logging fields omitted). -/
structure Elevator where
  id : Int
  totalFloors : Int
  currentFloor : Int
  state : EState
  direction : Dir
  maxPeople : Int
  maxWeight : Int
  passengers : List Passenger
  targets : List Int
  doorTimer : Int
  deriving DecidableEq, Repr

/-- Constructor options `{maxPeople, maxWeight}`; `none` models an absent
property. -/
structure ElevatorOpts where
  maxPeople : Option Int := none
  maxWeight : Option Int := none
  deriving DecidableEq, Repr

/-- JS `v || d` for an optional numeric property: the default is used when
the property is absent or equal to `0` (`0` is falsy in JS). -/
def jsOr (v : Option Int) (d : Int) : Int :=
  match v with
  | none => d
  | some x => if x = 0 then d else x

/-- The `Elevator` constructor: floor 1, `IDLE`, no direction, defaults
`maxPeople = 8` and `maxWeight = 680`, empty passenger list and target
set, door timer 0.  No input validation is performed by the source. -/
def mkElevator (id : Int) (totalFloors : Int) (opts : ElevatorOpts) : Elevator :=
  { id := id
    totalFloors := totalFloors
    currentFloor := 1
    state := EState.IDLE
    direction := Dir.NONE
    maxPeople := jsOr opts.maxPeople 8
    maxWeight := jsOr opts.maxWeight 680
    passengers := []
    targets := []
    doorTimer := 0 }

/-- JS `Set.add`: append when absent, keep insertion order. -/
def setAdd (s : List Int) (x : Int) : List Int :=
  if x ∈ s then s else s ++ [x]

/-- JS `Set.delete`: remove the element (the list is duplicate-free by
construction, so filtering removes exactly the one occurrence). -/
def setDelete (s : List Int) (x : Int) : List Int :=
  s.filter (fun y => y ≠ x)

/-- Sum of passenger weights; the source computes
`reduce((s, p) => s + p.weight, 0)`, a left fold, which has the same
value as this right fold by associativity of addition. -/
def sumWeights : List Passenger → Int
  | [] => 0
  | p :: rest => p.weight + sumWeights rest

/-- Derived direction of a request: `to > from` means `UP`, else `DOWN`. -/
def reqDirOf (p : Passenger) : Dir :=
  if p.toFloor > p.fromFloor then Dir.UP else Dir.DOWN

namespace Elevator

/-- `occupancyCount()`: number of passengers inside. -/
def occupancyCount (e : Elevator) : Int :=
  (e.passengers.length : Int)

/-- `occupancyWeight()`: total weight of passengers inside. -/
def occupancyWeight (e : Elevator) : Int :=
  sumWeights e.passengers

/-- `isFull()`: people count at or above `maxPeople`, or weight at or
above `maxWeight`. -/
def isFull (e : Elevator) : Bool :=
  decide (e.occupancyCount ≥ e.maxPeople) || decide (e.occupancyWeight ≥ e.maxWeight)

/-- `openDoorImmediately()`. -/
def openDoorImmediately (e : Elevator) : Elevator :=
  { e with state := EState.OPEN_DOOR, direction := Dir.NONE, doorTimer := 2 }

/-- `addTarget(floor)`: silently ignore out-of-range floors; add to the
target set; if idle, either open doors at once (same floor) or start
moving toward the floor. -/
def addTarget (e : Elevator) (floor : Int) : Elevator :=
  if floor < 1 ∨ floor > e.totalFloors then e
  else
    let e1 := { e with targets := setAdd e.targets floor }
    if e1.state = EState.IDLE then
      if e1.currentFloor = floor then e1.openDoorImmediately
      else { e1 with state := EState.MOVING,
                     direction := if floor > e1.currentFloor then Dir.UP else Dir.DOWN }
    else e1

/-- The `forEach` accumulator of `closestTarget()`: keep the first target
seen at each strictly smaller distance (`bestDist` starts at `Infinity`,
so the first element always replaces the empty accumulator). -/
def closestFold (cur : Int) : Option (Int × Int) → List Int → Option (Int × Int)
  | acc, [] => acc
  | acc, t :: rest =>
      let d := |cur - t|
      let acc1 :=
        match acc with
        | none => some (t, d)
        | some (b, bd) => if d < bd then some (t, d) else some (b, bd)
      closestFold cur acc1 rest

/-- `closestTarget()`: the current floor when the target set is empty,
otherwise the nearest target (first one wins on equal distance). -/
def closestTarget (e : Elevator) : Int :=
  match closestFold e.currentFloor none e.targets with
  | none => e.currentFloor
  | some p => p.1

/-- `handleAlightings()`: drop every passenger whose destination is the
current floor (the early return on an empty list has the same result). -/
def handleAlightings (e : Elevator) : Elevator :=
  { e with passengers := e.passengers.filter (fun p => p.toFloor ≠ e.currentFloor) }

/-- The boarding loop of `handleBoardings`, which walks the pending queue
from the last index down to 0 and may `splice` out the current entry;
here the input list is the reversed queue, so the head is the entry the
loop visits first.  The source guards boarding with
`!willBeFull && !willBeOverweight`; the negation is split across the two
branches below.  `break` on a full elevator returns the unvisited rest
unchanged. -/
def boardLoop : Elevator → List Passenger → Elevator × List Passenger
  | e, [] => (e, [])
  | e, req :: rest =>
      if req.fromFloor ≠ e.currentFloor then
        let r := boardLoop e rest
        (r.1, req :: r.2)
      else if e.state = EState.OPEN_DOOR then
        if e.direction = Dir.NONE ∨ e.direction = reqDirOf req ∨ e.targets = [] then
          if e.occupancyCount + 1 > e.maxPeople ∨ e.occupancyWeight + req.weight > e.maxWeight then
            if e.isFull then (e, req :: rest)
            else
              let r := boardLoop e rest
              (r.1, req :: r.2)
          else
            boardLoop { e with passengers := e.passengers ++ [req],
                               targets := setAdd e.targets req.toFloor } rest
        else
          let r := boardLoop e rest
          (r.1, req :: r.2)
      else
        let r := boardLoop e rest
        (r.1, req :: r.2)

/-- `handleBoardings(pendingRequests)`: returns the updated elevator and
the updated queue (the source mutates the shared array in place). -/
def handleBoardings (e : Elevator) (pendingRequests : List Passenger) :
    Elevator × List Passenger :=
  let r := boardLoop e pendingRequests.reverse
  (r.1, r.2.reverse)

/-- `stepTick(pendingRequests)`: one state-machine step.  Returns the
updated elevator together with the (possibly shortened) pending queue. -/
def stepTick (e : Elevator) (pendingRequests : List Passenger) :
    Elevator × List Passenger :=
  match e.state with
  | EState.IDLE =>
      if e.targets ≠ [] then
        let floor := e.closestTarget
        if floor ≠ e.currentFloor then
          ({ e with direction := if floor > e.currentFloor then Dir.UP else Dir.DOWN,
                    state := EState.MOVING }, pendingRequests)
        else (e.openDoorImmediately, pendingRequests)
      else (e, pendingRequests)
  | EState.MOVING =>
      let f :=
        if e.direction = Dir.UP then
          if e.currentFloor < e.totalFloors then e.currentFloor + 1 else e.currentFloor
        else if e.direction = Dir.DOWN then
          if e.currentFloor > 1 then e.currentFloor - 1 else e.currentFloor
        else e.currentFloor
      let e1 := { e with currentFloor := f }
      if e1.currentFloor ∈ e1.targets then
        ({ e1 with targets := setDelete e1.targets e1.currentFloor,
                   state := EState.OPEN_DOOR, doorTimer := 2 }, pendingRequests)
      else (e1, pendingRequests)
  | EState.OPEN_DOOR =>
      let e1 := e.handleAlightings
      let r := e1.handleBoardings pendingRequests
      let e2 : Elevator := { r.1 with doorTimer := r.1.doorTimer - 1 }
      if e2.doorTimer ≤ 0 then ({ e2 with state := EState.CLOSE_DOOR }, r.2)
      else (e2, r.2)
  | EState.CLOSE_DOOR =>
      if e.targets ≠ [] then
        let next := e.closestTarget
        ({ e with direction := if next > e.currentFloor then Dir.UP else Dir.DOWN,
                  state := EState.MOVING }, pendingRequests)
      else ({ e with state := EState.IDLE, direction := Dir.NONE }, pendingRequests)

end Elevator

/-- The state of the `ElevatorSystem` class (timer handle and tick
interval omitted: they only drive the external clock). -/
structure ElevatorSystem where
  elevators : List Elevator
  totalFloors : Int
  pendingRequests : List Passenger
  tickCount : Int
  nextId : Nat
  deriving DecidableEq, Repr

/-- The `ElevatorSystem` constructor: elevators numbered 1 to
`numElevators`, all sharing `opts`; empty pending queue; tick count 0.
No input validation is performed by the source. -/
def mkSystem (numElevators : Nat) (totalFloors : Int) (opts : ElevatorOpts) : ElevatorSystem :=
  { elevators := (List.range numElevators).map (fun i => mkElevator ((i : Int) + 1) totalFloors opts)
    totalFloors := totalFloors
    pendingRequests := []
    tickCount := 0
    nextId := 0 }

namespace ElevatorSystem

/-- The scoring expression shared by `tryAssignElevator` and
`tryAssignElevatorDirect`: base cost `distance * 10`, minus 1000 when at
the origin floor with doors available, minus 200 when moving toward the
origin in the request direction, plus 50 when moving otherwise, minus 50
when idle. -/
def scoreFor (el : Elevator) (reqFloor : Int) (reqDir : Dir) : Int :=
  let s0 := |el.currentFloor - reqFloor| * 10
  let s1 :=
    if el.currentFloor = reqFloor ∧
        (el.state = EState.IDLE ∨ el.state = EState.OPEN_DOOR ∨ el.state = EState.CLOSE_DOOR)
    then s0 - 1000 else s0
  let s2 :=
    if el.state = EState.MOVING then
      if (el.direction = Dir.UP ∧ el.currentFloor ≤ reqFloor ∧ reqDir = Dir.UP) ∨
          (el.direction = Dir.DOWN ∧ el.currentFloor ≥ reqFloor ∧ reqDir = Dir.DOWN)
      then s1 - 200 else s1 + 50
    else s1
  if el.state = EState.IDLE then s2 - 50 else s2

/-- `if (score < bestScore) { bestScore = score; bestElevator = el; }`:
strict improvement only, so the first elevator attaining the minimum
score is kept. -/
def updateBest (acc : Option (Nat × Int)) (i : Nat) (sc : Int) : Option (Nat × Int) :=
  match acc with
  | none => some (i, sc)
  | some (bi, bs) => if sc < bs then some (i, sc) else some (bi, bs)

/-- Selection loop of `tryAssignElevatorDirect`: skip full elevators,
skip elevators the passenger would overload, otherwise score and keep
the best.  `i` is the index of the head of the remaining list. -/
def tryAssignDirectAux (p : Passenger) :
    List Elevator → Nat → Option (Nat × Int) → Option (Nat × Int)
  | [], _, acc => acc
  | el :: rest, i, acc =>
      if el.isFull then tryAssignDirectAux p rest (i + 1) acc
      else if p.weight + el.occupancyWeight > el.maxWeight then
        tryAssignDirectAux p rest (i + 1) acc
      else tryAssignDirectAux p rest (i + 1) (updateBest acc i (scoreFor el p.fromFloor (reqDirOf p)))

/-- Selection loop of `tryAssignElevator`: identical checks, except that
the source computes the score before the weight-capacity `continue`
(no observable difference, reproduced faithfully). -/
def tryAssignAux (p : Passenger) :
    List Elevator → Nat → Option (Nat × Int) → Option (Nat × Int)
  | [], _, acc => acc
  | el :: rest, i, acc =>
      if el.isFull then tryAssignAux p rest (i + 1) acc
      else
        let sc := scoreFor el p.fromFloor (reqDirOf p)
        if p.weight + el.occupancyWeight > el.maxWeight then tryAssignAux p rest (i + 1) acc
        else tryAssignAux p rest (i + 1) (updateBest acc i sc)

/-- In-place mutation of one elevator in the list (the JS loop keeps an
object reference and mutates it). -/
def modifyAt : List Elevator → Nat → (Elevator → Elevator) → List Elevator
  | [], _, _ => []
  | el :: rest, 0, f => f el :: rest
  | el :: rest, n + 1, f => el :: modifyAt rest n f

/-- `tryAssignElevatorDirect(passenger)`: pick the best eligible
elevator, add the origin floor as its target, and report its index
(`none` models the `null` return). -/
def tryAssignElevatorDirect (els : List Elevator) (p : Passenger) :
    List Elevator × Option Nat :=
  match tryAssignDirectAux p els 0 none with
  | none => (els, none)
  | some (i, _) => (modifyAt els i (fun el => el.addTarget p.fromFloor), some i)

/-- `tryAssignElevator(passenger)`: same selection; on success it also
pushes the passenger onto the pending queue. -/
def tryAssignElevator (s : ElevatorSystem) (p : Passenger) :
    ElevatorSystem × Option Nat :=
  match tryAssignAux p s.elevators 0 none with
  | none => (s, none)
  | some (i, _) =>
      ({ s with elevators := modifyAt s.elevators i (fun el => el.addTarget p.fromFloor),
                pendingRequests := s.pendingRequests ++ [p] }, some i)

/-- `requestElevator(from, to, weight)`: reject out-of-range or equal
floors with no state change; otherwise build the passenger, try an
immediate assignment, and queue the passenger when assignment failed
(on success `tryAssignElevator` itself queued it). -/
def requestElevator (s : ElevatorSystem) (fromFloor toFloor weight : Int) : ElevatorSystem :=
  if fromFloor < 1 ∨ fromFloor > s.totalFloors ∨ toFloor < 1 ∨ toFloor > s.totalFloors ∨
      fromFloor = toFloor then s
  else
    let passenger : Passenger := ⟨s.nextId, fromFloor, toFloor, weight⟩
    let s1 := { s with nextId := s.nextId + 1 }
    let r := tryAssignElevator s1 passenger
    match r.2 with
    | none => { r.1 with pendingRequests := r.1.pendingRequests ++ [passenger] }
    | some _ => r.1

/-- Phase 1 of `tick()`: walk the pending queue from the last index down
to 0 (head of the reversed list first) and run a direct assignment for
each entry; the queue itself is never written by this loop. -/
def assignLoop : List Elevator → List Passenger → List Elevator
  | els, [] => els
  | els, req :: rest => assignLoop (tryAssignElevatorDirect els req).1 rest

/-- Phase 1 of `tick()` at the system level. -/
def assignPendingPhase (s : ElevatorSystem) : ElevatorSystem :=
  { s with elevators := assignLoop s.elevators s.pendingRequests.reverse }

/-- Phase 2 of `tick()`: step every elevator in order, threading the live
pending queue through each `stepTick`. -/
def stepAllLoop : List Elevator → List Passenger → List Elevator × List Passenger
  | [], q => ([], q)
  | el :: rest, q =>
      let r := el.stepTick q
      let r2 := stepAllLoop rest r.2
      (r.1 :: r2.1, r2.2)

/-- Phase 2 of `tick()` at the system level. -/
def stepAllPhase (s : ElevatorSystem) : ElevatorSystem :=
  let r := stepAllLoop s.elevators s.pendingRequests
  { s with elevators := r.1, pendingRequests := r.2 }

/-- The sweep loop of `releasePendingToIdleElevators`: walk the queue
from the last index down to 0; on a successful direct assignment remove
the entry (the source removes by `findIndex` on the id; ids are unique,
so that is exactly the visited entry). -/
def releaseLoop : List Elevator → List Passenger → List Elevator × List Passenger
  | els, [] => (els, [])
  | els, req :: rest =>
      let r := tryAssignElevatorDirect els req
      match r.2 with
      | some _ => releaseLoop r.1 rest
      | none =>
          let r2 := releaseLoop r.1 rest
          (r2.1, req :: r2.2)

/-- `releasePendingToIdleElevators()`. -/
def releasePendingToIdleElevators (s : ElevatorSystem) : ElevatorSystem :=
  let r := releaseLoop s.elevators s.pendingRequests.reverse
  { s with elevators := r.1, pendingRequests := r.2.reverse }

/-- `tick()`: bump the tick counter, re-attempt assignment for every
pending request, step every elevator against the live queue, log a
status snapshot (pure read, omitted), and on every 10th tick run the
sweep. -/
def tick (s : ElevatorSystem) : ElevatorSystem :=
  let s1 := { s with tickCount := s.tickCount + 1 }
  let s2 := assignPendingPhase s1
  let s3 := stepAllPhase s2
  if s3.tickCount % 10 = 0 then releasePendingToIdleElevators s3 else s3

end ElevatorSystem

/-! ### Concrete sample states used by the witnesses -/

/-- A one-elevator sample with doors open at floor 1. -/
def sampleElevator : Elevator :=
  { id := 1, totalFloors := 5, currentFloor := 1, state := EState.OPEN_DOOR,
    direction := Dir.NONE, maxPeople := 8, maxWeight := 680,
    passengers := [], targets := [], doorTimer := 2 }

/-- A sample request from floor 1 to floor 3. -/
def samplePassenger : Passenger := ⟨0, 1, 3, 70⟩

/-! ### Helper lemmas -/

theorem tryAssignElevator_cases (s : ElevatorSystem) (p : Passenger) :
    ((ElevatorSystem.tryAssignElevator s p).2 = none ∧
      (ElevatorSystem.tryAssignElevator s p).1 = s) ∨
    ((ElevatorSystem.tryAssignElevator s p).2 ≠ none ∧
      (ElevatorSystem.tryAssignElevator s p).1.pendingRequests = s.pendingRequests ++ [p]) := by
  unfold ElevatorSystem.tryAssignElevator
  cases h : ElevatorSystem.tryAssignAux p s.elevators 0 none with
  | none => left; simp
  | some v => right; obtain ⟨i, sc⟩ := v; simp

/-! ### C6 -/

/-- C6: a submission with an origin or destination floor outside
`[1, totalFloors]`, or with origin equal to destination, is rejected with
zero state change: `requestElevator` returns the system unchanged, hence
the pending queue and every elevator field are identical. -/
theorem c6_invalid_request_no_state_change (s : ElevatorSystem)
    (fromFloor toFloor weight : Int)
    (h : fromFloor < 1 ∨ fromFloor > s.totalFloors ∨ toFloor < 1 ∨ toFloor > s.totalFloors ∨
      fromFloor = toFloor) :
    ElevatorSystem.requestElevator s fromFloor toFloor weight = s := by
  unfold ElevatorSystem.requestElevator
  rw [if_pos h]

theorem c6_invalid_request_no_state_change_witness :
    ElevatorSystem.requestElevator (mkSystem 1 3 {}) 2 2 70 = mkSystem 1 3 {} :=
  c6_invalid_request_no_state_change (mkSystem 1 3 {}) 2 2 70 (by decide)

/-! ### C7 -/

/-- C7: a valid submission (floors in range, origin distinct from
destination) appends the newly constructed request to the pending queue
exactly once, whether or not the immediate assignment attempt found a
winning elevator. -/
theorem c7_valid_request_queued_once (s : ElevatorSystem)
    (fromFloor toFloor weight : Int)
    (h : ¬(fromFloor < 1 ∨ fromFloor > s.totalFloors ∨ toFloor < 1 ∨ toFloor > s.totalFloors ∨
      fromFloor = toFloor)) :
    (ElevatorSystem.requestElevator s fromFloor toFloor weight).pendingRequests
      = s.pendingRequests ++ [⟨s.nextId, fromFloor, toFloor, weight⟩] := by
  unfold ElevatorSystem.requestElevator
  rw [if_neg h]
  rcases tryAssignElevator_cases { s with nextId := s.nextId + 1 }
      ⟨s.nextId, fromFloor, toFloor, weight⟩ with ⟨h1, h2⟩ | ⟨h1, h2⟩
  · simp only [h1, h2]
  · cases h3 : (ElevatorSystem.tryAssignElevator { s with nextId := s.nextId + 1 }
        ⟨s.nextId, fromFloor, toFloor, weight⟩).2 with
    | none => exact absurd h3 h1
    | some i => simpa [h3] using h2

theorem c7_valid_request_queued_once_witness :
    (ElevatorSystem.requestElevator (mkSystem 1 3 {}) 1 3 70).pendingRequests
      = (mkSystem 1 3 {}).pendingRequests ++ [⟨(mkSystem 1 3 {}).nextId, 1, 3, 70⟩] :=
  c7_valid_request_queued_once (mkSystem 1 3 {}) 1 3 70 (by decide)

/-! ### C9 -/

/-- C9 (failing input): the constructors perform no validation at all.
Building a system with a non-positive floor count and negative capacity
limits succeeds and yields live simulation state, contradicting the
requirement that malformed construction-time configuration be rejected
before any simulation state exists.  (A `maxPeople` of `0` would even be
silently replaced by the default via JS falsiness, not rejected.) -/
theorem c9_construction_accepts_malformed_config :
    (mkSystem 1 0 ⟨some (-1), some (-5)⟩).totalFloors = 0 ∧
    (mkSystem 1 0 ⟨some (-1), some (-5)⟩).elevators.length = 1 ∧
    (∀ el ∈ (mkSystem 1 0 ⟨some (-1), some (-5)⟩).elevators,
      el.maxPeople = -1 ∧ el.maxWeight = -5 ∧ el.currentFloor = 1) := by
  decide

/-! ### Lemmas about the nearest-target fold -/

theorem closestFold_isSome (cur : Int) :
    ∀ (l : List Int) (x : Int × Int), ∃ y, Elevator.closestFold cur (some x) l = some y := by
  intro l
  induction l with
  | nil => intro x; exact ⟨x, rfl⟩
  | cons t rest ih =>
      intro x
      obtain ⟨b, bd⟩ := x
      unfold Elevator.closestFold
      dsimp only
      by_cases hd : |cur - t| < bd
      · simpa [hd] using ih _
      · simpa [hd] using ih _

theorem closestFold_fst_mem (cur : Int) :
    ∀ (l : List Int) (acc : Option (Int × Int)) (b d : Int),
      Elevator.closestFold cur acc l = some (b, d) →
      (∃ d0, acc = some (b, d0)) ∨ b ∈ l := by
  intro l
  induction l with
  | nil => intro acc b d h; exact Or.inl ⟨d, h⟩
  | cons t rest ih =>
      intro acc b d h
      unfold Elevator.closestFold at h
      cases acc with
      | none =>
          dsimp only at h
          rcases ih _ _ _ h with ⟨d0, h0⟩ | hmem
          · cases h0
            exact Or.inr (List.mem_cons_self _ _)
          · exact Or.inr (List.mem_cons_of_mem _ hmem)
      | some x =>
          obtain ⟨b0, bd0⟩ := x
          dsimp only at h
          by_cases hd : |cur - t| < bd0
          · rw [if_pos hd] at h
            rcases ih _ _ _ h with ⟨d0, h0⟩ | hmem
            · cases h0
              exact Or.inr (List.mem_cons_self _ _)
            · exact Or.inr (List.mem_cons_of_mem _ hmem)
          · rw [if_neg hd] at h
            rcases ih _ _ _ h with ⟨d0, h0⟩ | hmem
            · cases h0
              exact Or.inl ⟨bd0, rfl⟩
            · exact Or.inr (List.mem_cons_of_mem _ hmem)

theorem closestTarget_mem (e : Elevator) (ht : e.targets ≠ []) :
    e.closestTarget ∈ e.targets := by
  unfold Elevator.closestTarget
  cases hl : e.targets with
  | nil => exact absurd hl ht
  | cons t rest =>
      have hstep : Elevator.closestFold e.currentFloor none (t :: rest)
          = Elevator.closestFold e.currentFloor (some (t, |e.currentFloor - t|)) rest := by
        simp [Elevator.closestFold]
      obtain ⟨⟨b, d⟩, hy⟩ := closestFold_isSome e.currentFloor rest (t, |e.currentFloor - t|)
      rw [hstep, hy]
      dsimp only
      rcases closestFold_fst_mem e.currentFloor rest _ b d hy with ⟨d0, h0⟩ | hmem
      · cases h0
        exact List.mem_cons_self _ _
      · exact List.mem_cons_of_mem _ hmem

/-! ### C10 -/

/-- C10: an elevator closing its doors while the target set is non-empty
and the nearest target is the current floor (for example because the
current floor was re-added as a target while the doors were open) sets
direction `DOWN` and state `MOVING` instead of reopening, leaving the
current floor in the target set: it departs downward from a floor that
is still a target. -/
theorem c10_close_door_departs_down (e : Elevator) (q : List Passenger)
    (hs : e.state = EState.CLOSE_DOOR) (ht : e.targets ≠ [])
    (hc : e.closestTarget = e.currentFloor) :
    Elevator.stepTick e q = ({ e with direction := Dir.DOWN, state := EState.MOVING }, q) ∧
    e.currentFloor ∈ ({ e with direction := Dir.DOWN, state := EState.MOVING } : Elevator).targets := by
  constructor
  · unfold Elevator.stepTick
    rw [hs]
    dsimp only
    rw [if_pos ht, hc, if_neg (lt_irrefl e.currentFloor)]
  · show e.currentFloor ∈ e.targets
    rw [← hc]
    exact closestTarget_mem e ht

/-- Sample elevator for the C10 witness: closing doors at floor 1 with
floor 1 still in the target set. -/
def closingElevator : Elevator :=
  { id := 1, totalFloors := 5, currentFloor := 1, state := EState.CLOSE_DOOR,
    direction := Dir.NONE, maxPeople := 8, maxWeight := 680,
    passengers := [], targets := [1], doorTimer := 0 }

theorem c10_close_door_departs_down_witness :
    Elevator.stepTick closingElevator []
      = ({ closingElevator with direction := Dir.DOWN, state := EState.MOVING }, []) ∧
    closingElevator.currentFloor
      ∈ ({ closingElevator with direction := Dir.DOWN, state := EState.MOVING } : Elevator).targets :=
  c10_close_door_departs_down closingElevator [] (by decide) (by decide) (by decide)

/-! ### C2 -/

/-- The elevator state reached from a fresh 1-elevator, 3-floor system
after submitting a request 1 → 3 and running three ticks: the passenger
has boarded, floor 1 was re-added as a target while the doors were open,
and the close-door step chose direction `DOWN` at floor 1. -/
def stalledElevator : Elevator :=
  { id := 1, totalFloors := 3, currentFloor := 1, state := EState.MOVING,
    direction := Dir.DOWN, maxPeople := 8, maxWeight := 680,
    passengers := [⟨0, 1, 3, 70⟩], targets := [1, 3], doorTimer := 0 }

/-- C2 (counterexample): a `MOVING` elevator at the lower boundary does
not change its floor at all, contradicting the claim that every tick in
`MOVING` state changes `currentFloor` by exactly one in the direction of
travel.  The offending state is reachable: it is exactly the single
elevator of `tick (tick (tick (requestElevator (mkSystem 1 3 {}) 1 3 70)))`,
and stepping it leaves `currentFloor` at 1 instead of moving to 0. -/
theorem c2_moving_stalls_at_boundary :
    (ElevatorSystem.tick (ElevatorSystem.tick (ElevatorSystem.tick
        (ElevatorSystem.requestElevator (mkSystem 1 3 {}) 1 3 70)))).elevators
      = [stalledElevator] ∧
    stalledElevator.state = EState.MOVING ∧
    stalledElevator.direction = Dir.DOWN ∧
    (Elevator.stepTick stalledElevator []).1.currentFloor = stalledElevator.currentFloor ∧
    ¬(Elevator.stepTick stalledElevator []).1.currentFloor = stalledElevator.currentFloor - 1 := by
  refine ⟨by decide, rfl, rfl, by decide, by decide⟩

/-- C2 (amended): a `MOVING` elevator moves exactly one floor in its
direction of travel per tick unless it is already at the boundary in
that direction (`currentFloor = totalFloors` moving `UP`, or
`currentFloor = 1` moving `DOWN`), in which case the floor is unchanged
for that tick. -/
theorem c2_motion_law_amended (e : Elevator) (q : List Passenger)
    (hs : e.state = EState.MOVING) :
    (e.direction = Dir.UP →
      (Elevator.stepTick e q).1.currentFloor =
        if e.currentFloor < e.totalFloors then e.currentFloor + 1 else e.currentFloor) ∧
    (e.direction = Dir.DOWN →
      (Elevator.stepTick e q).1.currentFloor =
        if e.currentFloor > 1 then e.currentFloor - 1 else e.currentFloor) := by
  unfold Elevator.stepTick
  rw [hs]
  constructor <;> intro hd <;> rw [hd] <;> dsimp only <;>
    simp only [reduceCtorEq, if_false, reduceIte] <;> split <;> split <;> rfl

/-- Sample for the C2 witness: the sample elevator set moving upward. -/
def movingUpSample : Elevator :=
  { sampleElevator with state := EState.MOVING, direction := Dir.UP }

theorem c2_motion_law_amended_witness :
    (Elevator.stepTick movingUpSample []).1.currentFloor =
      if movingUpSample.currentFloor < movingUpSample.totalFloors
      then movingUpSample.currentFloor + 1 else movingUpSample.currentFloor :=
  (c2_motion_law_amended movingUpSample [] rfl).1 rfl

/-! ### Frame lemmas: what the boarding loop never changes -/

theorem boardLoop_frame :
    ∀ (l : List Passenger) (e : Elevator),
      (Elevator.boardLoop e l).1.currentFloor = e.currentFloor ∧
      (Elevator.boardLoop e l).1.totalFloors = e.totalFloors ∧
      (Elevator.boardLoop e l).1.state = e.state ∧
      (Elevator.boardLoop e l).1.maxPeople = e.maxPeople ∧
      (Elevator.boardLoop e l).1.maxWeight = e.maxWeight ∧
      (Elevator.boardLoop e l).1.direction = e.direction := by
  intro l
  induction l with
  | nil => intro e; simp [Elevator.boardLoop]
  | cons req rest ih =>
      intro e
      unfold Elevator.boardLoop
      split
      · simpa using ih e
      · split
        · split
          · split
            · split
              · simp
              · simpa using ih e
            · simpa using ih _
          · simpa using ih e
        · simpa using ih e

theorem handleBoardings_frame (e : Elevator) (l : List Passenger) :
    (Elevator.handleBoardings e l).1.currentFloor = e.currentFloor ∧
    (Elevator.handleBoardings e l).1.totalFloors = e.totalFloors ∧
    (Elevator.handleBoardings e l).1.state = e.state ∧
    (Elevator.handleBoardings e l).1.maxPeople = e.maxPeople ∧
    (Elevator.handleBoardings e l).1.maxWeight = e.maxWeight ∧
    (Elevator.handleBoardings e l).1.direction = e.direction := by
  unfold Elevator.handleBoardings
  simpa using boardLoop_frame l.reverse e

/-! ### C8 -/

/-- C8: one state-machine step keeps `currentFloor` within
`[1, totalFloors]` (and never changes `totalFloors`), and a freshly
constructed elevator starts at floor 1 — so from construction on, no
step moves the floor below 1 or above `totalFloors`. -/
theorem c8_floor_range_invariant (e : Elevator) (q : List Passenger)
    (h1 : 1 ≤ e.currentFloor) (h2 : e.currentFloor ≤ e.totalFloors) :
    (1 ≤ (Elevator.stepTick e q).1.currentFloor ∧
      (Elevator.stepTick e q).1.currentFloor ≤ (Elevator.stepTick e q).1.totalFloors ∧
      (Elevator.stepTick e q).1.totalFloors = e.totalFloors) ∧
    (∀ (i n : Int) (opts : ElevatorOpts), (mkElevator i n opts).currentFloor = 1) := by
  refine ⟨?_, fun i n opts => rfl⟩
  unfold Elevator.stepTick
  cases hst : e.state
  case IDLE =>
      dsimp only
      split
      · split
        · exact ⟨h1, h2, rfl⟩
        · exact ⟨h1, h2, rfl⟩
      · exact ⟨h1, h2, rfl⟩
  case MOVING =>
      dsimp only
      split_ifs <;> (dsimp only; exact ⟨by omega, by omega, rfl⟩)
  case OPEN_DOOR =>
      dsimp only
      have hfr := handleBoardings_frame e.handleAlightings q
      have hf : (e.handleAlightings.handleBoardings q).1.currentFloor = e.currentFloor := by
        rw [hfr.1]; rfl
      have ht : (e.handleAlightings.handleBoardings q).1.totalFloors = e.totalFloors := by
        rw [hfr.2.1]; rfl
      split
      · refine ⟨?_, ?_, ?_⟩
        · show 1 ≤ (e.handleAlightings.handleBoardings q).1.currentFloor
          rw [hf]; exact h1
        · show (e.handleAlightings.handleBoardings q).1.currentFloor
            ≤ (e.handleAlightings.handleBoardings q).1.totalFloors
          rw [hf, ht]; exact h2
        · exact ht
      · refine ⟨?_, ?_, ?_⟩
        · show 1 ≤ (e.handleAlightings.handleBoardings q).1.currentFloor
          rw [hf]; exact h1
        · show (e.handleAlightings.handleBoardings q).1.currentFloor
            ≤ (e.handleAlightings.handleBoardings q).1.totalFloors
          rw [hf, ht]; exact h2
        · exact ht
  case CLOSE_DOOR =>
      dsimp only
      split
      · exact ⟨h1, h2, rfl⟩
      · exact ⟨h1, h2, rfl⟩

theorem c8_floor_range_invariant_witness :
    (1 ≤ (Elevator.stepTick movingUpSample []).1.currentFloor ∧
      (Elevator.stepTick movingUpSample []).1.currentFloor
        ≤ (Elevator.stepTick movingUpSample []).1.totalFloors ∧
      (Elevator.stepTick movingUpSample []).1.totalFloors = movingUpSample.totalFloors) ∧
    (∀ (i n : Int) (opts : ElevatorOpts), (mkElevator i n opts).currentFloor = 1) :=
  c8_floor_range_invariant movingUpSample [] (by decide) (by decide)

/-! ### Weight-sum lemmas -/

theorem sumWeights_nonneg : ∀ (l : List Passenger), (∀ p ∈ l, 0 ≤ p.weight) → 0 ≤ sumWeights l
  | [], _ => le_refl 0
  | p :: rest, h => by
      have h1 := h p (List.mem_cons_self _ _)
      have h2 := sumWeights_nonneg rest (fun x hx => h x (List.mem_cons_of_mem _ hx))
      show 0 ≤ p.weight + sumWeights rest
      omega

theorem sumWeights_append (l : List Passenger) (p : Passenger) :
    sumWeights (l ++ [p]) = sumWeights l + p.weight := by
  induction l with
  | nil => show p.weight + 0 = 0 + p.weight; omega
  | cons x rest ih =>
      show x.weight + sumWeights (rest ++ [p]) = x.weight + sumWeights rest + p.weight
      rw [ih]
      omega

theorem sumWeights_filter_le (f : Passenger → Bool) :
    ∀ (l : List Passenger), (∀ p ∈ l, 0 ≤ p.weight) →
      sumWeights (l.filter f) ≤ sumWeights l := by
  intro l
  induction l with
  | nil => intro _; exact le_refl 0
  | cons p rest ih =>
      intro h
      have h1 := h p (List.mem_cons_self _ _)
      have h2 := ih (fun x hx => h x (List.mem_cons_of_mem _ hx))
      rw [List.filter_cons]
      split
      · show p.weight + sumWeights (rest.filter f) ≤ p.weight + sumWeights rest
        omega
      · show sumWeights (rest.filter f) ≤ p.weight + sumWeights rest
        omega

theorem occupancyCount_nonneg (e : Elevator) : 0 ≤ e.occupancyCount :=
  Int.natCast_nonneg _

/-! ### Capacity preservation through the boarding loop -/

theorem boardLoop_capacity :
    ∀ (l : List Passenger) (e : Elevator),
      e.occupancyCount ≤ e.maxPeople →
      e.occupancyWeight ≤ e.maxWeight →
      (∀ p ∈ e.passengers, 0 ≤ p.weight) →
      (∀ p ∈ l, 0 ≤ p.weight) →
      ((Elevator.boardLoop e l).1.occupancyCount ≤ (Elevator.boardLoop e l).1.maxPeople ∧
       (Elevator.boardLoop e l).1.occupancyWeight ≤ (Elevator.boardLoop e l).1.maxWeight ∧
       (∀ p ∈ (Elevator.boardLoop e l).1.passengers, 0 ≤ p.weight) ∧
       (∀ p ∈ (Elevator.boardLoop e l).2, 0 ≤ p.weight)) := by
  intro l
  induction l with
  | nil =>
      intro e hc hw hp hq
      exact ⟨hc, hw, hp, fun p hmem => absurd hmem (List.not_mem_nil p)⟩
  | cons req rest ih =>
      intro e hc hw hp hq
      have hreq : 0 ≤ req.weight := hq req (List.mem_cons_self _ _)
      have hrest : ∀ p ∈ rest, 0 ≤ p.weight := fun p h2 => hq p (List.mem_cons_of_mem _ h2)
      have consW : ∀ (m : List Passenger), (∀ p ∈ m, 0 ≤ p.weight) →
          ∀ p ∈ req :: m, 0 ≤ p.weight := by
        intro m hm p h2
        rcases List.mem_cons.mp h2 with h3 | h3
        · exact h3 ▸ hreq
        · exact hm p h3
      unfold Elevator.boardLoop
      split
      · obtain ⟨a, b, c, d⟩ := ih e hc hw hp hrest
        exact ⟨a, b, c, consW _ d⟩
      · split
        · split
          · split
            · split
              · exact ⟨hc, hw, hp, hq⟩
              · obtain ⟨a, b, c, d⟩ := ih e hc hw hp hrest
                exact ⟨a, b, c, consW _ d⟩
            · rename_i hcap
              push_neg at hcap
              obtain ⟨hcap1, hcap2⟩ := hcap
              refine ih _ ?_ ?_ ?_ hrest
              · show ((e.passengers ++ [req]).length : Int) ≤ e.maxPeople
                rw [List.length_append]
                push_cast
                have h4 : (e.passengers.length : Int) + 1 ≤ e.maxPeople := by
                  simpa [Elevator.occupancyCount] using hcap1
                simpa using h4
              · show sumWeights (e.passengers ++ [req]) ≤ e.maxWeight
                rw [sumWeights_append]
                simpa [Elevator.occupancyWeight] using hcap2
              · intro p h2
                rcases List.mem_append.mp h2 with h3 | h3
                · exact hp p h3
                · rw [List.mem_singleton.mp h3]
                  exact hreq
          · obtain ⟨a, b, c, d⟩ := ih e hc hw hp hrest
            exact ⟨a, b, c, consW _ d⟩
        · obtain ⟨a, b, c, d⟩ := ih e hc hw hp hrest
          exact ⟨a, b, c, consW _ d⟩

theorem handleBoardings_capacity (e : Elevator) (q : List Passenger)
    (hc : e.occupancyCount ≤ e.maxPeople)
    (hw : e.occupancyWeight ≤ e.maxWeight)
    (hp : ∀ p ∈ e.passengers, 0 ≤ p.weight)
    (hq : ∀ p ∈ q, 0 ≤ p.weight) :
    (Elevator.handleBoardings e q).1.occupancyCount
        ≤ (Elevator.handleBoardings e q).1.maxPeople ∧
    (Elevator.handleBoardings e q).1.occupancyWeight
        ≤ (Elevator.handleBoardings e q).1.maxWeight ∧
    (∀ p ∈ (Elevator.handleBoardings e q).1.passengers, 0 ≤ p.weight) ∧
    (∀ p ∈ (Elevator.handleBoardings e q).2, 0 ≤ p.weight) := by
  have hqr : ∀ p ∈ q.reverse, 0 ≤ p.weight := by
    intro p h2
    exact hq p (List.mem_reverse.mp h2)
  obtain ⟨a, b, c, d⟩ := boardLoop_capacity q.reverse e hc hw hp hqr
  refine ⟨a, b, c, ?_⟩
  intro p h2
  exact d p (List.mem_reverse.mp h2)

/-! ### C1 -/

/-- C1: when the elevator currently satisfies the capacity invariant and
every weight in play is nonnegative (weights model physical passenger
weights), one state-machine step — and in particular its boarding step —
keeps `0 ≤ peopleCount ≤ maxPeople` and `0 ≤ totalWeight ≤ maxWeight`:
no boarding ever pushes occupancy above `maxPeople` or total weight
above `maxWeight`. -/
theorem c1_capacity_invariant (e : Elevator) (q : List Passenger)
    (hc : e.occupancyCount ≤ e.maxPeople)
    (hw : e.occupancyWeight ≤ e.maxWeight)
    (hp : ∀ p ∈ e.passengers, 0 ≤ p.weight)
    (hq : ∀ p ∈ q, 0 ≤ p.weight) :
    (0 ≤ (Elevator.stepTick e q).1.occupancyCount ∧
     (Elevator.stepTick e q).1.occupancyCount ≤ (Elevator.stepTick e q).1.maxPeople ∧
     0 ≤ (Elevator.stepTick e q).1.occupancyWeight ∧
     (Elevator.stepTick e q).1.occupancyWeight ≤ (Elevator.stepTick e q).1.maxWeight) ∧
    (0 ≤ (Elevator.handleBoardings e q).1.occupancyCount ∧
     (Elevator.handleBoardings e q).1.occupancyCount
        ≤ (Elevator.handleBoardings e q).1.maxPeople ∧
     0 ≤ (Elevator.handleBoardings e q).1.occupancyWeight ∧
     (Elevator.handleBoardings e q).1.occupancyWeight
        ≤ (Elevator.handleBoardings e q).1.maxWeight) := by
  constructor
  · unfold Elevator.stepTick
    cases hst : e.state
    case IDLE =>
        dsimp only
        split
        · split
          · exact ⟨occupancyCount_nonneg _, hc, sumWeights_nonneg _ hp, hw⟩
          · exact ⟨occupancyCount_nonneg _, hc, sumWeights_nonneg _ hp, hw⟩
        · exact ⟨occupancyCount_nonneg _, hc, sumWeights_nonneg _ hp, hw⟩
    case MOVING =>
        dsimp only
        split_ifs <;> exact ⟨occupancyCount_nonneg _, hc, sumWeights_nonneg _ hp, hw⟩
    case OPEN_DOOR =>
        dsimp only
        have hc1 : e.handleAlightings.occupancyCount ≤ e.handleAlightings.maxPeople := by
          show ((e.passengers.filter
              (fun p => decide (p.toFloor ≠ e.currentFloor))).length : Int) ≤ e.maxPeople
          have h4 := List.length_filter_le
            (fun p => decide (p.toFloor ≠ e.currentFloor)) e.passengers
          have h5 : ((e.passengers.filter
              (fun p => decide (p.toFloor ≠ e.currentFloor))).length : Int)
              ≤ (e.passengers.length : Int) := Int.ofNat_le.mpr h4
          exact le_trans h5 hc
        have hp1 : ∀ p ∈ e.handleAlightings.passengers, 0 ≤ p.weight := by
          intro p h2
          exact hp p (List.mem_of_mem_filter h2)
        have hw1 : e.handleAlightings.occupancyWeight ≤ e.handleAlightings.maxWeight := by
          show sumWeights (e.passengers.filter
              (fun p => decide (p.toFloor ≠ e.currentFloor))) ≤ e.maxWeight
          exact le_trans (sumWeights_filter_le _ _ hp) hw
        obtain ⟨a, b, c, -⟩ := handleBoardings_capacity e.handleAlightings q hc1 hw1 hp1 hq
        split
        · exact ⟨occupancyCount_nonneg _, a, sumWeights_nonneg _ c, b⟩
        · exact ⟨occupancyCount_nonneg _, a, sumWeights_nonneg _ c, b⟩
    case CLOSE_DOOR =>
        dsimp only
        split
        · exact ⟨occupancyCount_nonneg _, hc, sumWeights_nonneg _ hp, hw⟩
        · exact ⟨occupancyCount_nonneg _, hc, sumWeights_nonneg _ hp, hw⟩
  · obtain ⟨a, b, c, -⟩ := handleBoardings_capacity e q hc hw hp hq
    exact ⟨occupancyCount_nonneg _, a, sumWeights_nonneg _ c, b⟩

theorem c1_capacity_invariant_witness :
    (0 ≤ (Elevator.stepTick sampleElevator [samplePassenger]).1.occupancyCount ∧
     (Elevator.stepTick sampleElevator [samplePassenger]).1.occupancyCount
        ≤ (Elevator.stepTick sampleElevator [samplePassenger]).1.maxPeople ∧
     0 ≤ (Elevator.stepTick sampleElevator [samplePassenger]).1.occupancyWeight ∧
     (Elevator.stepTick sampleElevator [samplePassenger]).1.occupancyWeight
        ≤ (Elevator.stepTick sampleElevator [samplePassenger]).1.maxWeight) ∧
    (0 ≤ (Elevator.handleBoardings sampleElevator [samplePassenger]).1.occupancyCount ∧
     (Elevator.handleBoardings sampleElevator [samplePassenger]).1.occupancyCount
        ≤ (Elevator.handleBoardings sampleElevator [samplePassenger]).1.maxPeople ∧
     0 ≤ (Elevator.handleBoardings sampleElevator [samplePassenger]).1.occupancyWeight ∧
     (Elevator.handleBoardings sampleElevator [samplePassenger]).1.occupancyWeight
        ≤ (Elevator.handleBoardings sampleElevator [samplePassenger]).1.maxWeight) :=
  c1_capacity_invariant sampleElevator [samplePassenger]
    (by decide) (by decide) (by decide) (by decide)

/-! ### C3 -/

/-- C3: during the `OPEN_DOOR` boarding step, a single pending candidate
at the elevator floor is admitted exactly when the direction condition
holds (direction `NONE`, or matching derived direction, or no other
targets) and admitting it would push neither the passenger count above
`maxPeople` nor the total weight above `maxWeight`; an admitted
candidate is removed from the queue, appended to the passenger list and
its destination added to the target set.  Moreover, when a candidate at
the floor passes the direction check but fails only the capacity check
while the elevator is full, the scan breaks off: the candidate and the
whole not-yet-scanned part of the queue are left untouched. -/
theorem c3_boarding_admission (e : Elevator) (r : Passenger)
    (hs : e.state = EState.OPEN_DOOR) (hf : r.fromFloor = e.currentFloor) :
    ((Elevator.handleBoardings e [r]).2 = [] ↔
      ((e.direction = Dir.NONE ∨ e.direction = reqDirOf r ∨ e.targets = []) ∧
       ¬(e.occupancyCount + 1 > e.maxPeople ∨
         e.occupancyWeight + r.weight > e.maxWeight))) ∧
    (((e.direction = Dir.NONE ∨ e.direction = reqDirOf r ∨ e.targets = []) ∧
       ¬(e.occupancyCount + 1 > e.maxPeople ∨
         e.occupancyWeight + r.weight > e.maxWeight)) →
      Elevator.handleBoardings e [r]
        = ({ e with passengers := e.passengers ++ [r],
                    targets := setAdd e.targets r.toFloor }, [])) ∧
    (∀ qpre : List Passenger,
      (e.direction = Dir.NONE ∨ e.direction = reqDirOf r ∨ e.targets = []) →
      (e.occupancyCount + 1 > e.maxPeople ∨ e.occupancyWeight + r.weight > e.maxWeight) →
      e.isFull = true →
      Elevator.handleBoardings e (qpre ++ [r]) = (e, qpre ++ [r])) := by
  have key : Elevator.boardLoop e [r] =
      if e.direction = Dir.NONE ∨ e.direction = reqDirOf r ∨ e.targets = [] then
        (if e.occupancyCount + 1 > e.maxPeople ∨ e.occupancyWeight + r.weight > e.maxWeight
         then (e, [r])
         else ({ e with passengers := e.passengers ++ [r],
                        targets := setAdd e.targets r.toFloor }, []))
      else (e, [r]) := by
    unfold Elevator.boardLoop
    rw [if_neg (not_not_intro hf), if_pos hs]
    split_ifs <;> rfl
  have hhb : Elevator.handleBoardings e [r]
      = ((Elevator.boardLoop e [r]).1, (Elevator.boardLoop e [r]).2.reverse) := rfl
  refine ⟨?_, ?_, ?_⟩
  · rw [hhb, key]
    split_ifs with h1 h2
    · simp [h1, h2]
    · simp [h1, h2]
    · simp [h1]
  · intro hcond
    rw [hhb, key, if_pos hcond.1, if_neg hcond.2]
    rfl
  · intro qpre hdir hcap hfull
    unfold Elevator.handleBoardings
    have hrev : (qpre ++ [r]).reverse = r :: qpre.reverse := by simp
    rw [hrev]
    unfold Elevator.boardLoop
    rw [if_neg (not_not_intro hf), if_pos hs, if_pos hdir, if_pos hcap, if_pos hfull]
    simp

theorem c3_boarding_admission_witness :
    Elevator.handleBoardings sampleElevator [samplePassenger]
      = ({ sampleElevator with
            passengers := sampleElevator.passengers ++ [samplePassenger],
            targets := setAdd sampleElevator.targets samplePassenger.toFloor }, []) :=
  (c3_boarding_admission sampleElevator samplePassenger rfl rfl).2.1 (by decide)

/-! ### C4: characterizing the assignment selection -/

namespace ElevatorSystem

/-- Eligibility of an elevator for a request as tested by both assignment
routines: not full, and the passenger would not overload it. -/
def eligibleFor (el : Elevator) (p : Passenger) : Bool :=
  !el.isFull && decide (p.weight + el.occupancyWeight ≤ el.maxWeight)

theorem tryAssignAux_eq_direct (p : Passenger) :
    ∀ (els : List Elevator) (i : Nat) (acc : Option (Nat × Int)),
      tryAssignAux p els i acc = tryAssignDirectAux p els i acc := by
  intro els
  induction els with
  | nil => intro i acc; rfl
  | cons el rest ih =>
      intro i acc
      unfold tryAssignAux tryAssignDirectAux
      dsimp only
      split_ifs <;> apply ih

theorem tryAssignDirectAux_ne_none (p : Passenger) :
    ∀ (els : List Elevator) (i : Nat) (x : Nat × Int),
      tryAssignDirectAux p els i (some x) ≠ none := by
  intro els
  induction els with
  | nil =>
      intro i x h
      exact Option.noConfusion h
  | cons el rest ih =>
      intro i x
      unfold tryAssignDirectAux
      split_ifs with h1 h2
      · exact ih _ _
      · exact ih _ _
      · obtain ⟨bi, bs⟩ := x
        unfold updateBest
        dsimp only
        split_ifs <;> exact ih _ _

theorem tryAssignDirectAux_none_iff (p : Passenger) :
    ∀ (els : List Elevator) (i : Nat),
      tryAssignDirectAux p els i none = none ↔ ∀ el ∈ els, eligibleFor el p = false := by
  intro els
  induction els with
  | nil => intro i; simp [tryAssignDirectAux]
  | cons el rest ih =>
      intro i
      unfold tryAssignDirectAux
      by_cases h1 : el.isFull = true
      · rw [if_pos h1, ih]
        constructor
        · intro h el2 hmem
          rcases List.mem_cons.mp hmem with h2 | h2
          · subst h2
            simp [eligibleFor, h1]
          · exact h el2 h2
        · intro h el2 hmem
          exact h el2 (List.mem_cons_of_mem _ hmem)
      · rw [if_neg h1]
        by_cases h2 : p.weight + el.occupancyWeight > el.maxWeight
        · rw [if_pos h2, ih]
          constructor
          · intro h el2 hmem
            rcases List.mem_cons.mp hmem with h3 | h3
            · subst h3
              simp only [eligibleFor, Bool.and_eq_false_iff]
              right
              simpa using h2
            · exact h el2 h3
          · intro h el2 hmem
            exact h el2 (List.mem_cons_of_mem _ hmem)
        · rw [if_neg h2]
          constructor
          · intro h4
            exact absurd h4 (tryAssignDirectAux_ne_none p rest (i + 1) _)
          · intro h4
            exfalso
            have h5 := h4 el (List.mem_cons_self _ _)
            have h6 : eligibleFor el p = true := by
              simp only [eligibleFor, Bool.and_eq_true, Bool.not_eq_true', decide_eq_true_eq]
              exact ⟨by simpa using h1, by omega⟩
            rw [h5] at h6
            exact Bool.noConfusion h6

end ElevatorSystem

namespace ElevatorSystem

theorem tryAssignDirectAux_mem (p : Passenger) :
    ∀ (els : List Elevator) (i : Nat) (acc : Option (Nat × Int)) (j : Nat) (s : Int),
      tryAssignDirectAux p els i acc = some (j, s) →
      acc = some (j, s) ∨
      ∃ k el, els.get? k = some el ∧ j = i + k ∧
        s = scoreFor el p.fromFloor (reqDirOf p) ∧ eligibleFor el p = true := by
  intro els
  induction els with
  | nil =>
      intro i acc j s h
      exact Or.inl h
  | cons el rest ih =>
      intro i acc j s h
      unfold tryAssignDirectAux at h
      by_cases h1 : el.isFull = true
      · rw [if_pos h1] at h
        rcases ih _ _ _ _ h with hacc | ⟨k, el2, hget, hj, hs2, helig⟩
        · exact Or.inl hacc
        · exact Or.inr ⟨k + 1, el2, by simpa using hget, by omega, hs2, helig⟩
      · rw [if_neg h1] at h
        by_cases h2 : p.weight + el.occupancyWeight > el.maxWeight
        · rw [if_pos h2] at h
          rcases ih _ _ _ _ h with hacc | ⟨k, el2, hget, hj, hs2, helig⟩
          · exact Or.inl hacc
          · exact Or.inr ⟨k + 1, el2, by simpa using hget, by omega, hs2, helig⟩
        · rw [if_neg h2] at h
          have heligel : eligibleFor el p = true := by
            simp only [eligibleFor, Bool.and_eq_true, Bool.not_eq_true', decide_eq_true_eq]
            exact ⟨by simpa using h1, by omega⟩
          rcases ih _ _ _ _ h with hacc | ⟨k, el2, hget, hj, hs2, helig⟩
          · cases acc with
            | none =>
                have h3 : (some (i, scoreFor el p.fromFloor (reqDirOf p))
                    : Option (Nat × Int)) = some (j, s) := hacc
                have h4 := Option.some.inj h3
                have hji : i = j := congrArg Prod.fst h4
                have hsi : s = scoreFor el p.fromFloor (reqDirOf p) :=
                  (congrArg Prod.snd h4).symm
                exact Or.inr ⟨0, el, rfl, by omega, hsi, heligel⟩
            | some x =>
                obtain ⟨bi, bs⟩ := x
                by_cases h5 : scoreFor el p.fromFloor (reqDirOf p) < bs
                · have h3 : (some (i, scoreFor el p.fromFloor (reqDirOf p))
                      : Option (Nat × Int)) = some (j, s) := by
                    simpa [updateBest, h5] using hacc
                  have h4 := Option.some.inj h3
                  have hji : i = j := congrArg Prod.fst h4
                  have hsi : s = scoreFor el p.fromFloor (reqDirOf p) :=
                    (congrArg Prod.snd h4).symm
                  exact Or.inr ⟨0, el, rfl, by omega, hsi, heligel⟩
                · have h3 : (some (bi, bs) : Option (Nat × Int)) = some (j, s) := by
                    simpa [updateBest, h5] using hacc
                  exact Or.inl h3
          · exact Or.inr ⟨k + 1, el2, by simpa using hget, by omega, hs2, helig⟩

end ElevatorSystem

namespace ElevatorSystem

theorem tryAssignDirectAux_min (p : Passenger) :
    ∀ (els : List Elevator) (i : Nat) (acc : Option (Nat × Int)) (j : Nat) (s : Int),
      tryAssignDirectAux p els i acc = some (j, s) →
      (∀ bi bs, acc = some (bi, bs) → s ≤ bs) ∧
      (∀ k el, els.get? k = some el → eligibleFor el p = true →
        s ≤ scoreFor el p.fromFloor (reqDirOf p)) := by
  intro els
  induction els with
  | nil =>
      intro i acc j s h
      constructor
      · intro bi bs hacc
        have h2 : (some (j, s) : Option (Nat × Int)) = some (bi, bs) := by
          rw [← h, ← hacc]; rfl
        have h3 := Option.some.inj h2
        have h4 : s = bs := congrArg Prod.snd h3
        omega
      · intro k el hget
        exact absurd hget (by simp)
  | cons el rest ih =>
      intro i acc j s h
      unfold tryAssignDirectAux at h
      by_cases h1 : el.isFull = true
      · rw [if_pos h1] at h
        obtain ⟨d1, d2⟩ := ih _ _ _ _ h
        refine ⟨d1, ?_⟩
        intro k el2 hget helig
        match k with
        | 0 =>
            have h3 : el2 = el := by simpa using hget.symm
            subst h3
            simp [eligibleFor, h1] at helig
        | Nat.succ k2 =>
            exact d2 k2 el2 (by simpa using hget) helig
      · rw [if_neg h1] at h
        by_cases h2 : p.weight + el.occupancyWeight > el.maxWeight
        · rw [if_pos h2] at h
          obtain ⟨d1, d2⟩ := ih _ _ _ _ h
          refine ⟨d1, ?_⟩
          intro k el2 hget helig
          match k with
          | 0 =>
              have h3 : el2 = el := by simpa using hget.symm
              subst h3
              have h4 : eligibleFor el2 p = false := by
                simp only [eligibleFor, Bool.and_eq_false_iff]
                right
                simpa using h2
              rw [helig] at h4
              exact Bool.noConfusion h4
          | Nat.succ k2 =>
              exact d2 k2 el2 (by simpa using hget) helig
        · rw [if_neg h2] at h
          obtain ⟨d1, d2⟩ := ih _ _ _ _ h
          have hsc : s ≤ scoreFor el p.fromFloor (reqDirOf p) := by
            cases acc with
            | none => exact d1 i _ rfl
            | some x =>
                obtain ⟨bi, bs⟩ := x
                by_cases h5 : scoreFor el p.fromFloor (reqDirOf p) < bs
                · have := d1 i (scoreFor el p.fromFloor (reqDirOf p))
                    (by simp [updateBest, h5])
                  omega
                · have := d1 bi bs (by simp [updateBest, h5])
                  omega
          constructor
          · intro bi bs hacc
            subst hacc
            by_cases h5 : scoreFor el p.fromFloor (reqDirOf p) < bs
            · have := d1 i (scoreFor el p.fromFloor (reqDirOf p)) (by simp [updateBest, h5])
              omega
            · have := d1 bi bs (by simp [updateBest, h5])
              omega
          · intro k el2 hget helig
            match k with
            | 0 =>
                have h3 : el2 = el := by simpa using hget.symm
                subst h3
                exact hsc
            | Nat.succ k2 =>
                exact d2 k2 el2 (by simpa using hget) helig

end ElevatorSystem

namespace ElevatorSystem

theorem tryAssignDirectAux_first (p : Passenger) :
    ∀ (els : List Elevator) (i : Nat) (acc : Option (Nat × Int)),
      (∀ bi bs, acc = some (bi, bs) → bi < i) →
      ∀ (j : Nat) (s : Int), tryAssignDirectAux p els i acc = some (j, s) →
      (∀ bi bs, acc = some (bi, bs) → j ≠ bi → s < bs) ∧
      (∀ k el, els.get? k = some el → i + k < j → eligibleFor el p = true →
        s < scoreFor el p.fromFloor (reqDirOf p)) := by
  intro els
  induction els with
  | nil =>
      intro i acc hacc j s h
      constructor
      · intro bi bs haccEq hne
        have h2 : (some (j, s) : Option (Nat × Int)) = some (bi, bs) := by
          rw [← h, ← haccEq]; rfl
        have h3 := Option.some.inj h2
        exact absurd (congrArg Prod.fst h3) hne
      · intro k el hget
        exact absurd hget (by simp)
  | cons el rest ih =>
      intro i acc hacc j s h
      unfold tryAssignDirectAux at h
      by_cases h1 : el.isFull = true
      · rw [if_pos h1] at h
        have hacc1 : ∀ bi bs, acc = some (bi, bs) → bi < i + 1 := by
          intro bi bs h2
          have := hacc bi bs h2
          omega
        obtain ⟨e1, e2⟩ := ih (i + 1) acc hacc1 j s h
        refine ⟨e1, ?_⟩
        intro k el2 hget hlt helig
        match k with
        | 0 =>
            have h3 : el2 = el := by simpa using hget.symm
            subst h3
            simp [eligibleFor, h1] at helig
        | Nat.succ k2 =>
            exact e2 k2 el2 (by simpa using hget) (by omega) helig
      · rw [if_neg h1] at h
        by_cases h2 : p.weight + el.occupancyWeight > el.maxWeight
        · rw [if_pos h2] at h
          have hacc1 : ∀ bi bs, acc = some (bi, bs) → bi < i + 1 := by
            intro bi bs h3
            have := hacc bi bs h3
            omega
          obtain ⟨e1, e2⟩ := ih (i + 1) acc hacc1 j s h
          refine ⟨e1, ?_⟩
          intro k el2 hget hlt helig
          match k with
          | 0 =>
              have h3 : el2 = el := by simpa using hget.symm
              subst h3
              have h4 : eligibleFor el2 p = false := by
                simp only [eligibleFor, Bool.and_eq_false_iff]
                right
                simpa using h2
              rw [helig] at h4
              exact Bool.noConfusion h4
          | Nat.succ k2 =>
              exact e2 k2 el2 (by simpa using hget) (by omega) helig
        · rw [if_neg h2] at h
          obtain ⟨dmin, -⟩ := tryAssignDirectAux_min p rest (i + 1) _ j s h
          cases acc with
          | none =>
              have hacc1 : ∀ bi bs,
                  updateBest none i (scoreFor el p.fromFloor (reqDirOf p)) = some (bi, bs) →
                  bi < i + 1 := by
                intro bi bs h3
                have h4 := Option.some.inj h3
                have h5 : bi = i := (congrArg Prod.fst h4).symm
                omega
              obtain ⟨e1, e2⟩ := ih (i + 1) _ hacc1 j s h
              constructor
              · intro bi bs h3
                exact absurd h3 (by simp)
              · intro k el2 hget hlt helig
                match k with
                | 0 =>
                    have h3 : el2 = el := by simpa using hget.symm
                    subst h3
                    exact e1 i _ rfl (by omega)
                | Nat.succ k2 =>
                    exact e2 k2 el2 (by simpa using hget) (by omega) helig
          | some x =>
              obtain ⟨b0, bs0⟩ := x
              by_cases h5 : scoreFor el p.fromFloor (reqDirOf p) < bs0
              · have hupd : updateBest (some (b0, bs0)) i
                    (scoreFor el p.fromFloor (reqDirOf p))
                    = some (i, scoreFor el p.fromFloor (reqDirOf p)) := by
                  simp [updateBest, h5]
                rw [hupd] at h
                have hacc1 : ∀ bi bs,
                    (some (i, scoreFor el p.fromFloor (reqDirOf p))
                      : Option (Nat × Int)) = some (bi, bs) → bi < i + 1 := by
                  intro bi bs h3
                  have h4 := Option.some.inj h3
                  have h6 : i = bi := congrArg Prod.fst h4
                  omega
                obtain ⟨e1, e2⟩ := ih (i + 1) _ hacc1 j s h
                have hmin := (tryAssignDirectAux_min p rest (i + 1) _ j s h).1
                constructor
                · intro bi bs h3
                  have h4 := Option.some.inj h3
                  have h6 : bi = b0 := (congrArg Prod.fst h4).symm
                  have h7 : bs = bs0 := (congrArg Prod.snd h4).symm
                  subst h6
                  subst h7
                  intro hne
                  have h8 : s ≤ scoreFor el p.fromFloor (reqDirOf p) := hmin i _ rfl
                  omega
                · intro k el2 hget hlt helig
                  match k with
                  | 0 =>
                      have h3 : el2 = el := by simpa using hget.symm
                      subst h3
                      exact e1 i _ rfl (by omega)
                  | Nat.succ k2 =>
                      exact e2 k2 el2 (by simpa using hget) (by omega) helig
              · have hupd : updateBest (some (b0, bs0)) i
                    (scoreFor el p.fromFloor (reqDirOf p)) = some (b0, bs0) := by
                  simp [updateBest, h5]
                rw [hupd] at h
                have hacc1 : ∀ bi bs,
                    (some (b0, bs0) : Option (Nat × Int)) = some (bi, bs) → bi < i + 1 := by
                  intro bi bs h3
                  have h4 := Option.some.inj h3
                  have h6 : b0 = bi := congrArg Prod.fst h4
                  have h7 := hacc b0 bs0 rfl
                  omega
                obtain ⟨e1, e2⟩ := ih (i + 1) _ hacc1 j s h
                constructor
                · intro bi bs h3
                  have h4 := Option.some.inj h3
                  have h6 : bi = b0 := (congrArg Prod.fst h4).symm
                  have h7 : bs = bs0 := (congrArg Prod.snd h4).symm
                  subst h6
                  subst h7
                  exact e1 bi bs rfl
                · intro k el2 hget hlt helig
                  match k with
                  | 0 =>
                      have h3 : el2 = el := by simpa using hget.symm
                      subst h3
                      have h8 : s < bs0 := by
                        have h9 := hacc b0 bs0 rfl
                        exact e1 b0 bs0 rfl (by omega)
                      omega
                  | Nat.succ k2 =>
                      exact e2 k2 el2 (by simpa using hget) (by omega) helig

end ElevatorSystem

/-- C4: both assignment routines run the same selection; an elevator
that is full, or that the request would overload, is excluded; when
nobody is eligible no elevator is assigned; and the winner is an
eligible elevator whose score `10*|currentFloor - originFloor|` with the
`-1000` at-floor, `-200`/`+50` moving and `-50` idle adjustments (the
definition `ElevatorSystem.scoreFor`) is minimal among eligible
elevators, every eligible elevator earlier in enumeration order having a
strictly larger score — first found wins ties. -/
theorem c4_assignment_selects_min_score (els : List Elevator) (p : Passenger) :
    (∀ (i : Nat) (acc : Option (Nat × Int)),
      ElevatorSystem.tryAssignAux p els i acc
        = ElevatorSystem.tryAssignDirectAux p els i acc) ∧
    ((ElevatorSystem.tryAssignElevatorDirect els p).2 = none ↔
      ∀ el ∈ els, ElevatorSystem.eligibleFor el p = false) ∧
    (∀ j, (ElevatorSystem.tryAssignElevatorDirect els p).2 = some j → j < els.length) ∧
    (∀ j el, (ElevatorSystem.tryAssignElevatorDirect els p).2 = some j →
      els.get? j = some el →
      ElevatorSystem.eligibleFor el p = true ∧
      (∀ k el2, els.get? k = some el2 → ElevatorSystem.eligibleFor el2 p = true →
        ElevatorSystem.scoreFor el p.fromFloor (reqDirOf p)
          ≤ ElevatorSystem.scoreFor el2 p.fromFloor (reqDirOf p)) ∧
      (∀ k el2, k < j → els.get? k = some el2 → ElevatorSystem.eligibleFor el2 p = true →
        ElevatorSystem.scoreFor el p.fromFloor (reqDirOf p)
          < ElevatorSystem.scoreFor el2 p.fromFloor (reqDirOf p))) := by
  refine ⟨ElevatorSystem.tryAssignAux_eq_direct p els, ?_, ?_, ?_⟩
  · cases haux : ElevatorSystem.tryAssignDirectAux p els 0 none with
    | none =>
        have hres : (ElevatorSystem.tryAssignElevatorDirect els p).2 = none := by
          simp [ElevatorSystem.tryAssignElevatorDirect, haux]
        rw [hres]
        simp only [true_iff]
        exact (ElevatorSystem.tryAssignDirectAux_none_iff p els 0).mp haux
    | some v =>
        obtain ⟨j, s⟩ := v
        have hres : (ElevatorSystem.tryAssignElevatorDirect els p).2 = some j := by
          simp [ElevatorSystem.tryAssignElevatorDirect, haux]
        rw [hres]
        constructor
        · intro h3
          exact Option.noConfusion h3
        · intro h3
          have h4 := (ElevatorSystem.tryAssignDirectAux_none_iff p els 0).mpr h3
          rw [haux] at h4
          exact Option.noConfusion h4
  · intro j hsel
    cases haux : ElevatorSystem.tryAssignDirectAux p els 0 none with
    | none =>
        have hres : (ElevatorSystem.tryAssignElevatorDirect els p).2 = none := by
          simp [ElevatorSystem.tryAssignElevatorDirect, haux]
        rw [hres] at hsel
        exact Option.noConfusion hsel
    | some v =>
        obtain ⟨j0, s⟩ := v
        have hres : (ElevatorSystem.tryAssignElevatorDirect els p).2 = some j0 := by
          simp [ElevatorSystem.tryAssignElevatorDirect, haux]
        rw [hres] at hsel
        have hj0 : j0 = j := Option.some.inj hsel
        rw [hj0] at haux
        rcases ElevatorSystem.tryAssignDirectAux_mem p els 0 none j s haux with
          hacc | ⟨k, el2, hget2, hj, -, -⟩
        · exact Option.noConfusion hacc
        · obtain ⟨hlt, -⟩ := List.get?_eq_some.mp hget2
          omega
  · intro j el hsel hget
    cases haux : ElevatorSystem.tryAssignDirectAux p els 0 none with
    | none =>
        have hres : (ElevatorSystem.tryAssignElevatorDirect els p).2 = none := by
          simp [ElevatorSystem.tryAssignElevatorDirect, haux]
        rw [hres] at hsel
        exact Option.noConfusion hsel
    | some v =>
        obtain ⟨j0, s⟩ := v
        have hres : (ElevatorSystem.tryAssignElevatorDirect els p).2 = some j0 := by
          simp [ElevatorSystem.tryAssignElevatorDirect, haux]
        rw [hres] at hsel
        have hj0 : j0 = j := Option.some.inj hsel
        rw [hj0] at haux
        rcases ElevatorSystem.tryAssignDirectAux_mem p els 0 none j s haux with
          hacc | ⟨k, el2, hget2, hj, hs2, helig2⟩
        · exact Option.noConfusion hacc
        · have hkj : k = j := by omega
          rw [hkj] at hget2
          have hel : el2 = el := by
            have := hget2.symm.trans hget
            exact Option.some.inj this
          subst hel
          obtain ⟨-, dmin⟩ := ElevatorSystem.tryAssignDirectAux_min p els 0 none j s haux
          have hfirstAcc : ∀ bi bs, (none : Option (Nat × Int)) = some (bi, bs) → bi < 0 := by
            intro bi bs h3
            exact Option.noConfusion h3
          obtain ⟨-, efirst⟩ :=
            ElevatorSystem.tryAssignDirectAux_first p els 0 none hfirstAcc j s haux
          refine ⟨helig2, ?_, ?_⟩
          · intro k2 el3 hget3 helig3
            rw [← hs2]
            exact dmin k2 el3 hget3 helig3
          · intro k2 el3 hlt hget3 helig3
            rw [← hs2]
            exact efirst k2 el3 hget3 (by omega) helig3

/-- Witness elevator for C4: idle two floors away from the request. -/
def idleFarElevator : Elevator :=
  { id := 1, totalFloors := 5, currentFloor := 1, state := EState.IDLE,
    direction := Dir.NONE, maxPeople := 8, maxWeight := 680,
    passengers := [], targets := [], doorTimer := 0 }

/-- Witness elevator for C4: idle at the request origin floor. -/
def idleAtFloorElevator : Elevator :=
  { id := 2, totalFloors := 5, currentFloor := 3, state := EState.IDLE,
    direction := Dir.NONE, maxPeople := 8, maxWeight := 680,
    passengers := [], targets := [], doorTimer := 0 }

/-- Witness request for C4: from floor 3 up to floor 5. -/
def upwardPassenger : Passenger := ⟨1, 3, 5, 70⟩

theorem c4_assignment_selects_min_score_witness :
    ElevatorSystem.eligibleFor idleAtFloorElevator upwardPassenger = true ∧
    ElevatorSystem.scoreFor idleAtFloorElevator upwardPassenger.fromFloor
        (reqDirOf upwardPassenger)
      ≤ ElevatorSystem.scoreFor idleFarElevator upwardPassenger.fromFloor
        (reqDirOf upwardPassenger) := by
  have h := (c4_assignment_selects_min_score [idleFarElevator, idleAtFloorElevator]
      upwardPassenger).2.2.2 1 idleAtFloorElevator (by decide) (by decide)
  exact ⟨h.1, h.2.1 0 idleFarElevator (by decide) (by decide)⟩

/-! ### C5: tick phase structure -/

theorem addTarget_passengers (e : Elevator) (f : Int) :
    (Elevator.addTarget e f).passengers = e.passengers := by
  unfold Elevator.addTarget Elevator.openDoorImmediately
  dsimp only
  split_ifs <;> rfl

theorem modifyAt_map_passengers :
    ∀ (els : List Elevator) (i : Nat) (f : Elevator → Elevator),
      (∀ e, (f e).passengers = e.passengers) →
      (ElevatorSystem.modifyAt els i f).map Elevator.passengers
        = els.map Elevator.passengers := by
  intro els
  induction els with
  | nil => intro i f h; rfl
  | cons el rest ih =>
      intro i f h
      cases i with
      | zero => simp [ElevatorSystem.modifyAt, h el]
      | succ n => simp [ElevatorSystem.modifyAt, ih n f h]

theorem tryAssignElevatorDirect_map_passengers (els : List Elevator) (p : Passenger) :
    (ElevatorSystem.tryAssignElevatorDirect els p).1.map Elevator.passengers
      = els.map Elevator.passengers := by
  unfold ElevatorSystem.tryAssignElevatorDirect
  cases haux : ElevatorSystem.tryAssignDirectAux p els 0 none with
  | none => rfl
  | some v =>
      obtain ⟨i, sc⟩ := v
      dsimp only
      exact modifyAt_map_passengers els i _ (fun e => addTarget_passengers e p.fromFloor)

theorem assignLoop_map_passengers :
    ∀ (q : List Passenger) (els : List Elevator),
      (ElevatorSystem.assignLoop els q).map Elevator.passengers
        = els.map Elevator.passengers := by
  intro q
  induction q with
  | nil => intro els; rfl
  | cons r rest ih =>
      intro els
      unfold ElevatorSystem.assignLoop
      rw [ih]
      exact tryAssignElevatorDirect_map_passengers els r

/-- C5: a `tick()` is exactly, in order: bump the counter, run a direct
assignment attempt for every pending request (which never removes a
request from the queue and never touches any passenger list), step every
elevator once against the live queue (status logging is a pure read),
and only when the incremented counter is a multiple of 10 run the sweep,
whose per-request step removes the request by identity exactly when its
reassignment succeeded — the only removal path that bypasses boarding. -/
theorem c5_tick_phase_order (s : ElevatorSystem) :
    (ElevatorSystem.tick s =
      (if (ElevatorSystem.stepAllPhase (ElevatorSystem.assignPendingPhase
            { s with tickCount := s.tickCount + 1 })).tickCount % 10 = 0
       then ElevatorSystem.releasePendingToIdleElevators
            (ElevatorSystem.stepAllPhase (ElevatorSystem.assignPendingPhase
              { s with tickCount := s.tickCount + 1 }))
       else ElevatorSystem.stepAllPhase (ElevatorSystem.assignPendingPhase
              { s with tickCount := s.tickCount + 1 }))) ∧
    (∀ t : ElevatorSystem,
      (ElevatorSystem.assignPendingPhase t).pendingRequests = t.pendingRequests) ∧
    (∀ t : ElevatorSystem,
      (ElevatorSystem.assignPendingPhase t).elevators.map Elevator.passengers
        = t.elevators.map Elevator.passengers) ∧
    ((ElevatorSystem.stepAllPhase (ElevatorSystem.assignPendingPhase
        { s with tickCount := s.tickCount + 1 })).tickCount = s.tickCount + 1) ∧
    (∀ (els : List Elevator) (r : Passenger),
      ElevatorSystem.releaseLoop els [r] =
        ((ElevatorSystem.tryAssignElevatorDirect els r).1,
         match (ElevatorSystem.tryAssignElevatorDirect els r).2 with
         | some _ => []
         | none => [r])) := by
  refine ⟨rfl, fun t => rfl, fun t => assignLoop_map_passengers _ _, rfl, ?_⟩
  intro els r
  unfold ElevatorSystem.releaseLoop
  cases h : (ElevatorSystem.tryAssignElevatorDirect els r).2 with
  | some i => simp [ElevatorSystem.releaseLoop, h]
  | none => simp [ElevatorSystem.releaseLoop, h]
